import Mathlib

/-!
Verification development for the `ai-skills` Raycast extension
(`src/extensions/ai-skills`).  The TypeScript sources are shallowly
embedded: JavaScript strings are modeled as `List Char` (written `Str`),
the host key-value store is modeled by explicit state passing of the
parsed stored data, the external YAML library and the external AI model
service are modeled as explicit oracle parameters, and filesystem
results are passed in as parameters.  All character-level operations
(`trim`, `toLowerCase`, `indexOf`, ...) are modeled on ASCII, which
covers every string the extension itself constructs.
-/

/-- JavaScript strings are sequences of characters. -/
abbrev Str := List Char

/-- The apostrophe character, `U+0027`. -/
def apos : Char := Char.ofNat 39

/-- Whitespace as recognized by JavaScript `trim` / `trimEnd`
(ASCII fragment: space, tab, newline, carriage return, vertical tab,
form feed). -/
def wsChar (c : Char) : Bool :=
  c = ' ' || c = '\t' || c = '\n' || c = '\r' || c = Char.ofNat 11 || c = Char.ofNat 12

/-- JavaScript `trimStart`. -/
def trimStart (s : Str) : Str := s.dropWhile wsChar

/-- JavaScript `trimEnd` (used on the output of `YAML.stringify` in
`createSkill`, storage.ts line 290). -/
def trimEnd (s : Str) : Str := (s.reverse.dropWhile wsChar).reverse

/-- JavaScript `trim`. -/
def jsTrim (s : Str) : Str := trimEnd (trimStart s)

/-- ASCII lowercase of a string, modeling JavaScript `toLowerCase`. -/
def lowerStr (s : Str) : Str := s.map Char.toLower

/-- ASCII uppercase of a string, modeling JavaScript `toUpperCase`. -/
def upperStr (s : Str) : Str := s.map Char.toUpper

/-- The three-character delimiter `---` of the SKILL.md front matter. -/
def dashes : Str := ['-', '-', '-']

/-- Search for the first occurrence of `---` in the remaining input,
carrying the absolute index of the head of the remaining input.
Together with `jsIndexOfFrom` this models `content.indexOf("---", 3)`
(storage.ts line 28). -/
def findDashes : Str → Nat → Option Nat
  | [], _ => none
  | c :: t, i => if dashes.isPrefixOf (c :: t) then some i else findDashes t (i + 1)

/-- JavaScript `s.indexOf("---", start)`, returning `none` for `-1`. -/
def jsIndexOfFrom (s : Str) (start : Nat) : Option Nat :=
  findDashes (s.drop start) start

/-- Whether `---` occurs anywhere in `s`. -/
def containsDashes (s : Str) : Bool := (findDashes s 0).isSome

/-! ### Stored data model (types.ts, storage.ts) -/

/-- The YAML front-matter fields of a skill
(`SkillFrontmatter`, storage.ts lines 15-18). -/
structure SkillFrontmatter where
  name : Str
  description : Str
deriving DecidableEq, Repr

/-- A discovered skill (`ClaudeSkill`, types.ts lines 4-44). -/
structure ClaudeSkill where
  name : Str
  path : Str
  metadata : SkillFrontmatter
  content : Str
  supportingFiles : List Str
  skillMdPath : Str
deriving DecidableEq, Repr

/-- A configured skills folder (`SkillsFolder`, types.ts lines 49-59);
`label` is optional. -/
structure SkillsFolder where
  path : Str
  label : Option Str
deriving DecidableEq, Repr

/-- Storage key for the folder list (types.ts line 64). -/
def SKILLS_FOLDER_KEY : Str := "skills-folder-paths".data

/-- Storage key for the enabled-skills list (storage.ts line 9). -/
def ENABLED_SKILLS_KEY : Str := "enabled_skills".data

/-- Storage key for the routing-model preference (storage.ts line 10). -/
def ROUTING_MODEL_KEY : Str := "routing_model".data

/-! ### Folder-list CRUD (storage.ts lines 115-133)

The stored folder list is passed explicitly; each function returns the
list that is stored after the call. -/

/-- Truthiness of `folders.find((f) => f.path.toLowerCase() === folderPath.toLowerCase())`
(storage.ts line 119). -/
def folderPathDup (folders : List SkillsFolder) (folderPath : Str) : Bool :=
  (folders.find? (fun f => lowerStr f.path == lowerStr folderPath)).isSome

/-- `addSkillsFolderPath` (storage.ts lines 115-123): append unless a
case-insensitive duplicate path is present (in which case nothing is
written). -/
def addSkillsFolderPath (folderPath : Str) (label : Option Str)
    (folders : List SkillsFolder) : List SkillsFolder :=
  if folderPathDup folders folderPath then folders
  else folders ++ [⟨folderPath, label⟩]

/-- `removeSkillsFolderPath` (storage.ts lines 128-133): keep the
entries whose lowercased path differs. -/
def removeSkillsFolderPath (folderPath : Str)
    (folders : List SkillsFolder) : List SkillsFolder :=
  folders.filter (fun f => !(lowerStr f.path == lowerStr folderPath))

/-! ### Enabled-skills set (storage.ts lines 387-431) -/

/-- `isSkillEnabled` (storage.ts lines 403-406): `enabled.includes(skillName)`. -/
def isSkillEnabled (skillName : Str) (enabled : List Str) : Bool :=
  enabled.contains skillName

/-- `enableSkill` (storage.ts lines 411-417): push unless present
(no write happens when the name is already present). -/
def enableSkill (skillName : Str) (enabled : List Str) : List Str :=
  if enabled.contains skillName then enabled else enabled ++ [skillName]

/-- `disableSkill` (storage.ts lines 422-426): filter the name out. -/
def disableSkill (skillName : Str) (enabled : List Str) : List Str :=
  enabled.filter (fun name => !(name == skillName))

/-- `Array.from(new Set(skillNames))` keeps the first occurrence of
each element, in order (storage.ts line 429). -/
def jsSetDedup : List Str → List Str
  | [] => []
  | x :: t => x :: (jsSetDedup t).filter (fun y => !(y == x))

/-- `setEnabledSkillNames` (storage.ts lines 428-431): store the
deduplicated list. -/
def setEnabledSkillNames (skillNames : List Str) : List Str :=
  jsSetDedup skillNames

/-- The enabled-list rewrite performed by the rename step of
`updateSkill` (storage.ts lines 327-333): if the old name is enabled,
replace it by filtering it out and pushing the new name; otherwise the
stored list is untouched. -/
def renameEnabledStep (name newName : Str) (enabled : List Str) : List Str :=
  if enabled.contains name then (enabled.filter (fun n => !(n == name))) ++ [newName]
  else enabled

/-! ### remove-skills-folder tool (remove-skills-folder.ts lines 41-64) -/

/-- The three return branches of the remove-skills-folder tool:
`errNotFound` is the "Folder path not found in configuration" message,
`errLastFolder` the "Cannot remove the only skills folder. ... You must
have at least one skills folder configured." message, and `removed` the
success message (whose text also depends on the filesystem). -/
inductive RemoveFolderOutcome where
  | errNotFound
  | errLastFolder
  | removed
deriving DecidableEq, Repr

/-- The remove-skills-folder tool (remove-skills-folder.ts lines 41-64):
exact-match membership test on `paths.includes(input.folderPath)`, then
the single-folder guard, then `removeSkillsFolderPath`.  Returns the
folder list stored after the run together with the outcome. -/
def removeSkillsFolderTool (folders : List SkillsFolder) (folderPath : Str) :
    List SkillsFolder × RemoveFolderOutcome :=
  let paths := folders.map (fun f => f.path)
  if !(paths.contains folderPath) then (folders, .errNotFound)
  else if paths.length == 1 then (folders, .errLastFolder)
  else (removeSkillsFolderPath folderPath folders, .removed)

/-! ### set-skills-folder tool (set-skills-folder.ts lines 38-74)

`validatePathNoTraversal`, `fs.existsSync` and `fs.statSync(...).isDirectory()`
query the path module and the filesystem, so their results are passed in
as booleans; `discoveredNames` is `getAllSkills().map((s) => s.name)`,
the directory names discovered across all configured folders after the
new folder was added. -/

/-- Outcome of the set-skills-folder tool run. -/
inductive SetFolderOutcome where
  | errTraversal
  | errNotExists
  | errNotDirectory
  | ok
deriving DecidableEq, Repr

/-- The set-skills-folder tool: after the three validations it adds the
folder and stores `setEnabledSkillNames(allSkillNames)` as the new
enabled list.  Returns (stored folders, stored enabled list, outcome). -/
def setSkillsFolderTool (pathValid pathExists isDirectory : Bool)
    (folderPath : Str) (folders : List SkillsFolder)
    (discoveredNames : List Str) (enabled : List Str) :
    List SkillsFolder × List Str × SetFolderOutcome :=
  if !pathValid then (folders, enabled, .errTraversal)
  else if !pathExists then (folders, enabled, .errNotExists)
  else if !isDirectory then (folders, enabled, .errNotDirectory)
  else (addSkillsFolderPath folderPath none folders,
        setEnabledSkillNames discoveredNames, .ok)

/-! ### SKILL.md front-matter parsing (storage.ts lines 23-56)

`YAML.parse` comes from the external `yaml` npm package, so it is
modeled as an oracle `Str → Option Yaml` over a type of JavaScript
values: `none` models a thrown parse error (caught at storage.ts
line 52), `some v` a returned value. -/

/-- JavaScript values a YAML parse can return. -/
inductive Yaml where
  | vnull
  | vbool (b : Bool)
  | vnum (n : Int)
  | vstr (s : Str)
  | vseq (items : List Yaml)
  | vmap (entries : List (Str × Yaml))

/-- First-match association lookup, modeling JavaScript property access
`record["key"]` on a parsed mapping object. -/
def mapLookup : List (Str × Yaml) → Str → Option Yaml
  | [], _ => none
  | (k, v) :: t, key => if k = key then some v else mapLookup t key

/-- JavaScript truthiness of a parsed value (the `!parsed` test at
storage.ts line 39). -/
def jsTruthy : Yaml → Bool
  | .vnull => false
  | .vbool b => b
  | .vnum n => !(n == 0)
  | .vstr s => !s.isEmpty
  | .vseq _ => true
  | .vmap _ => true

/-- Whether `typeof parsed === "object"` (true for objects, arrays and
`null`, storage.ts line 39). -/
def jsTypeofIsObject : Yaml → Bool
  | .vnull => true
  | .vseq _ => true
  | .vmap _ => true
  | _ => false

/-- JavaScript property access `record["key"]` on a parsed value:
`undefined` (i.e. `none`) unless the value is a mapping object holding
the key.  (A parsed sequence is an array; `"name"` is not one of its
index properties.) -/
def jsGetProp (v : Yaml) (key : Str) : Option Yaml :=
  match v with
  | .vmap entries => mapLookup entries key
  | _ => none

/-- The `name` front-matter key. -/
def nameKey : Str := "name".data

/-- The `description` front-matter key. -/
def descriptionKey : Str := "description".data

/-- `parseSkillMarkdown` (storage.ts lines 23-56): require the leading
`---`, find the next `---` from index 3, YAML-parse the trimmed text in
between, require a truthy object with string `name` and `description`
properties, and return them with the trimmed text after the second
`---`. -/
def parseSkillMarkdown (yamlParse : Str → Option Yaml) (content : Str) :
    Option (SkillFrontmatter × Str) :=
  if dashes.isPrefixOf content then
    match jsIndexOfFrom content 3 with
    | none => none
    | some frontmatterEnd =>
      match yamlParse (jsTrim ((content.take frontmatterEnd).drop 3)) with
      | none => none
      | some parsed =>
        if jsTruthy parsed && jsTypeofIsObject parsed then
          match jsGetProp parsed nameKey, jsGetProp parsed descriptionKey with
          | some (.vstr n), some (.vstr d) =>
              some (⟨n, d⟩, jsTrim (content.drop (frontmatterEnd + 3)))
          | _, _ => none
        else none
  else none

/-! ### The SKILL.md text written by createSkill (storage.ts lines 274-308) -/

/-- The file text `createSkill` writes (storage.ts lines 290-293):
the front matter is `YAML.stringify({name, description})` with trailing
whitespace removed, wrapped in `---` delimiters, followed by the
content.  `YAML.stringify` is the external library, passed as an
oracle. -/
def skillFileText (yamlStringify : Str → Str → Str)
    (name description content : Str) : Str :=
  "---\n".data ++ trimEnd (yamlStringify name description) ++ "\n---\n\n".data ++ content

/-- The skill-name validation regex of the create-skill tool,
`/^[a-z0-9-]+$/`. -/
def matchesSkillNameRegex (s : Str) : Bool :=
  !s.isEmpty && s.all (fun c => ('a' ≤ c && c ≤ 'z') || ('0' ≤ c && c ≤ '9') || c = '-')

/-! ### A concrete model of the external yaml library

Used to instantiate the YAML oracles at concrete inputs.  On a flat
two-field mapping of plain scalars (which is what `createSkill` passes:
skill names match `/^[a-z0-9-]+$/` and need no quoting), the library
serializes one `key: value` line per field with a trailing newline, and
parses such lines back, trimming the value text. -/

/-- Serializer model: `YAML.stringify({name, description})` for plain
scalar values. -/
def miniYamlStringify (name description : Str) : Str :=
  "name: ".data ++ name ++ ('\n' :: ("description: ".data ++ description)) ++ ['\n']

/-- Split a string on newline characters. -/
def splitLines : Str → List Str
  | [] => [[]]
  | c :: t =>
    if c = '\n' then [] :: splitLines t
    else
      match splitLines t with
      | [] => [[c]]
      | l :: ls => (c :: l) :: ls

/-- Parse one `key: value` line of a flat block mapping; a line with no
colon is a parse error, an empty value denotes null. -/
def miniYamlParseLine (l : Str) : Option (Str × Yaml) :=
  match l.dropWhile (fun c => !(c == ':')) with
  | [] => none
  | _ :: v =>
      some (jsTrim (l.takeWhile (fun c => !(c == ':'))),
        if (jsTrim v).isEmpty then Yaml.vnull else Yaml.vstr (jsTrim v))

/-- Parser model: parse every non-blank `key: value` line; an input
with no non-blank lines is the null document. -/
def miniYamlParse (s : Str) : Option Yaml :=
  match (splitLines s).filter (fun l => !(jsTrim l).isEmpty) with
  | [] => some Yaml.vnull
  | ls =>
    match ls.mapM miniYamlParseLine with
    | none => none
    | some entries => some (Yaml.vmap entries)

/-! ### Values written to the host key-value store (C8)

`LocalStorage.setItem(key, JSON.stringify(x))` is modeled by a function
returning the `(key, value)` pair written, `none` when the code path
performs no write.  `jsonString`, `jsonStrList` and `jsonFolderList`
model `JSON.stringify` on the string lists and folder-object lists the
extension stores (V8 semantics: no added whitespace, object keys in
insertion order, `undefined` properties omitted). -/

/-- Hex digit used in `\u00XX` escapes (lowercase, as `JSON.stringify`
produces). -/
def hexDigit (n : Nat) : Char :=
  if n < 10 then Char.ofNat (48 + n) else Char.ofNat (87 + n)

/-- `JSON.stringify` escaping of a single character. -/
def jsonEscapeChar (c : Char) : Str :=
  if c = '"' then ['\\', '"']
  else if c = '\\' then ['\\', '\\']
  else if c = Char.ofNat 8 then ['\\', 'b']
  else if c = '\t' then ['\\', 't']
  else if c = '\n' then ['\\', 'n']
  else if c = Char.ofNat 12 then ['\\', 'f']
  else if c = '\r' then ['\\', 'r']
  else if c.toNat < 32 then
    ['\\', 'u', '0', '0', hexDigit (c.toNat / 16), hexDigit (c.toNat % 16)]
  else [c]

/-- `JSON.stringify` of a string. -/
def jsonString (s : Str) : Str :=
  '"' :: ((s.map jsonEscapeChar).flatten ++ ['"'])

/-- `JSON.stringify` of an array of strings. -/
def jsonStrList (l : List Str) : Str :=
  '[' :: (List.intercalate [','] (l.map jsonString) ++ [']'])

/-- `JSON.stringify` of a `SkillsFolder` object: `label` is omitted
when it is `undefined`. -/
def jsonFolder (f : SkillsFolder) : Str :=
  match f.label with
  | none => "\x7b\"path\":".data ++ jsonString f.path ++ "\x7d".data
  | some lab =>
      "\x7b\"path\":".data ++ jsonString f.path ++ ",\"label\":".data
        ++ jsonString lab ++ "\x7d".data

/-- `JSON.stringify` of an array of `SkillsFolder` objects. -/
def jsonFolderList (l : List SkillsFolder) : Str :=
  '[' :: (List.intercalate [','] (l.map jsonFolder) ++ [']'])

/-- The write performed by `addSkillsFolderPath` (storage.ts line 121);
no write happens on the duplicate branch. -/
def addSkillsFolderWrite (folderPath : Str) (label : Option Str)
    (folders : List SkillsFolder) : Option (Str × Str) :=
  if folderPathDup folders folderPath then none
  else some (SKILLS_FOLDER_KEY, jsonFolderList (folders ++ [⟨folderPath, label⟩]))

/-- The write performed by `removeSkillsFolderPath` (storage.ts line 132). -/
def removeSkillsFolderWrite (folderPath : Str)
    (folders : List SkillsFolder) : Option (Str × Str) :=
  some (SKILLS_FOLDER_KEY,
    jsonFolderList (folders.filter (fun f => !(lowerStr f.path == lowerStr folderPath))))

/-- The write performed by `enableSkill` (storage.ts line 415);
no write happens when the name is already enabled. -/
def enableSkillWrite (skillName : Str) (enabled : List Str) : Option (Str × Str) :=
  if enabled.contains skillName then none
  else some (ENABLED_SKILLS_KEY, jsonStrList (enabled ++ [skillName]))

/-- The write performed by `disableSkill` (storage.ts line 425). -/
def disableSkillWrite (skillName : Str) (enabled : List Str) : Option (Str × Str) :=
  some (ENABLED_SKILLS_KEY, jsonStrList (enabled.filter (fun name => !(name == skillName))))

/-- The write performed by `setEnabledSkillNames` (storage.ts line 430). -/
def setEnabledSkillNamesWrite (skillNames : List Str) : Option (Str × Str) :=
  some (ENABLED_SKILLS_KEY, jsonStrList (jsSetDedup skillNames))

/-- The write performed by `setRoutingModel` (storage.ts lines 455-457):
`LocalStorage.setItem(ROUTING_MODEL_KEY, model)` stores the model
string itself, with no `JSON.stringify` around it. -/
def setRoutingModelWrite (model : Str) : Option (Str × Str) :=
  some (ROUTING_MODEL_KEY, model)

/-! ### use-skills tool (remove-skills-folder.ts lines 249-388)

`AI.ask` reaches the externally hosted model, so it is modeled as an
oracle `Str → Option Str`; `none` models a thrown error (caught at
remove-skills-folder.ts line 350 and turned into `null`).  Each
function returns its result together with the list of prompts sent to
the external service, so that the number of requests is part of the
embedding. -/

/-- The two quote characters stripped from the model reply by
`response.trim().replace(/^["?]|["?]$/g, "")` (remove-skills-folder.ts
line 343; the second alternative in each character class is the
apostrophe). -/
def isQuoteChar (c : Char) : Bool := c = '"' || c = apos

/-- One application of the reply-cleanup regex: remove one leading and
one trailing quote character. -/
def stripQuotes (s : Str) : Str :=
  let s1 := match s with
    | [] => []
    | c :: t => if isQuoteChar c then t else c :: t
  match s1.reverse with
  | [] => s1
  | c :: _ => if isQuoteChar c then s1.dropLast else s1

/-- The sentinel reply `"NONE"`. -/
def noneReply : Str := "NONE".data

/-- Number the elements of a list starting at index 0, rendering each
with the given line formatter — models `skills.map((skill, index) => ...)`. -/
def numberedList (fmt : Nat → ClaudeSkill → Str) : Nat → List ClaudeSkill → List Str
  | _, [] => []
  | i, sk :: t => fmt i sk :: numberedList fmt (i + 1) t

/-- The routing prompt built by `selectSkillWithAI`
(remove-skills-folder.ts lines 314-335). -/
def buildPrompt (skills : List ClaudeSkill) (request : Str) : Str :=
  "You are a skill router. Select the best skill for the user".data ++ [apos]
    ++ "s request.\n\nUser Request: \"".data ++ request
    ++ "\"\n\nAvailable Skills:\n".data
    ++ List.intercalate ['\n']
        (numberedList
          (fun i sk => (Nat.repr (i + 1)).data ++ ". Name: ".data ++ sk.metadata.name
            ++ "\n   Description: ".data ++ sk.metadata.description)
          0 skills)
    ++ "\n\nSelection rules:\n1. Pick the skill whose purpose best matches what the user wants to accomplish\n2. Consider the entire description, not just keywords\n3. If multiple skills match, choose the most specific one\n4. Only return \"NONE\" if the request is completely unrelated to all skills (e.g., \"hello\", \"how are you\")\n\nOutput: ONLY the skill name from the list above, or \"NONE\" if no match.\n\nSelected skill name:".data

/-- `selectSkillWithAI` (remove-skills-folder.ts lines 312-355): send
the single prompt, trim and quote-strip the reply, map `NONE`
(case-insensitively) and errors to `null`.  The second component lists
the prompts sent. -/
def selectSkillWithAI (skills : List ClaudeSkill) (request : Str)
    (routingModel : Str) (oracle : Str → Option Str) : Option Str × List Str :=
  ((match oracle (buildPrompt skills request) with
    | none => none
    | some response =>
        if upperStr (stripQuotes (jsTrim response)) = noneReply then none
        else some (stripQuotes (jsTrim response))),
   [buildPrompt skills request])

/-- `enabledSkills.find((s) => s.name === selectedSkillName || s.metadata.name === selectedSkillName)`
(remove-skills-folder.ts lines 292-294). -/
def findSkillByName (skills : List ClaudeSkill) (selected : Str) : Option ClaudeSkill :=
  skills.find? (fun s => s.name == selected || s.metadata.name == selected)

/-- `formatSkillResponse` (remove-skills-folder.ts lines 360-368). -/
def formatSkillResponse (skill : ClaudeSkill) : Str :=
  "# Skill: ".data ++ skill.metadata.name ++ "\n\n".data ++ skill.metadata.description
    ++ "\n\n## Instructions\n\n".data ++ skill.content

/-- `formatNoMatchMessage` (remove-skills-folder.ts lines 373-388). -/
def formatNoMatchMessage (skills : List ClaudeSkill) : Str :=
  "# General Response Required\n\nNo enabled skill matches this request. Use your general capabilities to help the user.\n\nDo NOT use any of the following skills:\n".data
    ++ List.intercalate ['\n']
        (numberedList
          (fun i sk => (Nat.repr (i + 1)).data ++ ". **".data ++ sk.metadata.name
            ++ "** - ".data ++ sk.metadata.description)
          0 skills)
    ++ "\n\nIf the user explicitly mentions a skill name, inform them it".data ++ [apos]
    ++ "s not available.".data

/-- The setup message returned when no routing model is configured
(remove-skills-folder.ts lines 253-268). -/
def setupRequiredMessage : Str :=
  "# Setup Required\n\nBefore using AI Skills, you need to configure your routing model preference.\n\n## What is a Routing Model?\n\nThe routing model is a fast AI model that intelligently selects which skill to use based on your request.\n\n## How to Setup\n\n1. Open \"Manage Skills\" command in Raycast\n2. Click \"Setup Preferences\" (gear icon)\n3. Select your preferred routing model (we recommend **Gemini 2.5 Flash Lite**)\n4. The selection is saved automatically\n\nOnce configured, you can use AI Skills to help with various tasks!".data

/-- The guidance returned when no skill is enabled
(remove-skills-folder.ts lines 274-281). -/
def noSkillsEnabledMessage : Str :=
  "No AI Skills are currently enabled.\n\nTo enable skills:\n1. Open \"Manage Skills\" command\n2. Use Cmd+T to toggle skills on/off\n3. Once enabled, skills will be available here\n\nSkills must be enabled before they can be used by the AI.".data

/-- The use-skills tool (remove-skills-folder.ts lines 249-307):
setup message when no routing model is configured, guidance when no
skill is enabled, otherwise one `selectSkillWithAI` call whose result
is looked up among the enabled skills.  Returns the reply text together
with the list of prompts sent to the external model service. -/
def useSkillsTool (routingModel : Option Str) (skills : List ClaudeSkill)
    (oracle : Str → Option Str) (request : Str) : Str × List Str :=
  match routingModel with
  | none => (setupRequiredMessage, [])
  | some model =>
    if skills.isEmpty then (noSkillsEnabledMessage, [])
    else
      match (selectSkillWithAI skills request model oracle).1 with
      | none => (formatNoMatchMessage skills, (selectSkillWithAI skills request model oracle).2)
      | some selected =>
        match findSkillByName skills selected with
        | some sk => (formatSkillResponse sk, (selectSkillWithAI skills request model oracle).2)
        | none => (formatNoMatchMessage skills, (selectSkillWithAI skills request model oracle).2)

/-! ### Helper lemmas -/

theorem contains_iff_mem (l : List Str) (a : Str) : l.contains a = true ↔ a ∈ l := by
  simp [List.contains]

theorem contains_eq_decide (l : List Str) (a : Str) : l.contains a = decide (a ∈ l) := by
  by_cases hm : a ∈ l
  · simp only [hm, decide_True]
    exact (contains_iff_mem l a).mpr hm
  · simp only [hm, decide_False]
    rw [Bool.eq_false_iff]
    intro hc
    exact hm ((contains_iff_mem l a).mp hc)

theorem mem_jsSetDedup (a : Str) : ∀ l : List Str, a ∈ jsSetDedup l ↔ a ∈ l := by
  intro l
  induction l with
  | nil => simp [jsSetDedup]
  | cons x t ih =>
    simp only [jsSetDedup, List.mem_cons, List.mem_filter, ih]
    by_cases hax : a = x
    · simp [hax]
    · simp [hax]

theorem nodup_jsSetDedup : ∀ l : List Str, (jsSetDedup l).Nodup := by
  intro l
  induction l with
  | nil => simp [jsSetDedup]
  | cons x t ih =>
    refine List.Nodup.cons ?_ (ih.filter _)
    intro hx
    rcases List.mem_filter.mp hx with ⟨-, hne⟩
    simp at hne

/-- C5 helper: membership in an appended singleton. -/
theorem mem_append_singleton (a b : Str) (l : List Str) :
    a ∈ l ++ [b] ↔ a ∈ l ∨ a = b := by
  simp

/-! ## C5 — enable/disable/isSkillEnabled algebra -/

/-- C5: after `enableSkill(n)` the skill `n` is enabled; after
`disableSkill(n)` it is disabled; both operations leave every other
name's enabled status unchanged; and `enableSkill` on an
already-enabled name leaves the stored list identical. -/
theorem enable_disable_isEnabled_spec (st : List Str) (n m : Str) :
    isSkillEnabled n (enableSkill n st) = true
    ∧ isSkillEnabled n (disableSkill n st) = false
    ∧ (m ≠ n → isSkillEnabled m (enableSkill n st) = isSkillEnabled m st)
    ∧ (m ≠ n → isSkillEnabled m (disableSkill n st) = isSkillEnabled m st)
    ∧ (isSkillEnabled n st = true → enableSkill n st = st) := by
  simp only [enableSkill, disableSkill, isSkillEnabled, contains_eq_decide]
  refine ⟨?_, ?_, ?_, ?_, ?_⟩
  · by_cases hm : n ∈ st <;> simp [hm]
  · simp [List.mem_filter]
  · intro hmn
    by_cases hm : n ∈ st
    · simp [hm]
    · simp [hm, decide_eq_decide, hmn]
  · intro hmn
    simp [decide_eq_decide, List.mem_filter, hmn]
  · intro h
    rw [decide_eq_true_eq] at h
    simp [h]

/-- C5 witness. -/
theorem enable_disable_isEnabled_spec_witness :
    isSkillEnabled "b".data (enableSkill "a".data ["b".data]) = isSkillEnabled "b".data ["b".data]
    ∧ isSkillEnabled "b".data (disableSkill "a".data ["b".data]) = isSkillEnabled "b".data ["b".data]
    ∧ enableSkill "a".data ["a".data] = ["a".data] :=
  ⟨(enable_disable_isEnabled_spec ["b".data] "a".data "b".data).2.2.1 (by decide),
   (enable_disable_isEnabled_spec ["b".data] "a".data "b".data).2.2.2.1 (by decide),
   (enable_disable_isEnabled_spec ["a".data] "a".data "a".data).2.2.2.2 (by decide)⟩

/-! ## C6 — folder-list CRUD -/

/-- C6: `addSkillsFolderPath(p)` leaves the stored list unchanged when
some stored folder's path equals `p` ignoring case, and otherwise
appends `{path: p, label}` at the end; `removeSkillsFolderPath(p)`
removes exactly those entries whose path equals `p` ignoring case and
preserves the relative order of the remaining entries (the result is a
sublist of the input). -/
theorem folder_crud_spec (st : List SkillsFolder) (p : Str) (lab : Option Str) :
    ((∃ f ∈ st, lowerStr f.path = lowerStr p) → addSkillsFolderPath p lab st = st)
    ∧ ((∀ f ∈ st, lowerStr f.path ≠ lowerStr p) →
        addSkillsFolderPath p lab st = st ++ [⟨p, lab⟩])
    ∧ (removeSkillsFolderPath p st).Sublist st
    ∧ (∀ f, f ∈ removeSkillsFolderPath p st ↔ f ∈ st ∧ lowerStr f.path ≠ lowerStr p) := by
  refine ⟨?_, ?_, ?_, ?_⟩
  · rintro ⟨f, hf, hfp⟩
    have hdup : folderPathDup st p = true := by
      rcases hfind : st.find? (fun f => lowerStr f.path == lowerStr p) with _ | g
      · exfalso
        have := List.find?_eq_none.mp hfind f hf
        simp [hfp] at this
      · simp [folderPathDup, hfind]
    simp [addSkillsFolderPath, hdup]
  · intro hall
    have hdup : folderPathDup st p = false := by
      rcases hfind : st.find? (fun f => lowerStr f.path == lowerStr p) with _ | g
      · simp [folderPathDup, hfind]
      · exfalso
        have hmem := List.mem_of_find?_eq_some hfind
        have hpg := List.find?_some hfind
        simp only [beq_iff_eq] at hpg
        exact hall g hmem hpg
    simp [addSkillsFolderPath, hdup]
  · exact List.filter_sublist st
  · intro f
    simp [removeSkillsFolderPath, List.mem_filter]

/-- C6 witness. -/
theorem folder_crud_spec_witness :
    addSkillsFolderPath "A".data none [⟨"a".data, none⟩] = [⟨"a".data, none⟩]
    ∧ addSkillsFolderPath "b".data none [⟨"a".data, none⟩]
        = [⟨"a".data, none⟩, ⟨"b".data, none⟩] :=
  ⟨(folder_crud_spec [⟨"a".data, none⟩] "A".data none).1
      ⟨⟨"a".data, none⟩, by decide, by decide⟩,
   (folder_crud_spec [⟨"a".data, none⟩] "b".data none).2.1 (by decide)⟩

/-! ## C7 — remove-skills-folder tool invariant

The tool's own error message and the README ("Remove folders (must keep
at least one)") assert that at least one configured folder always
remains.  The membership guard compares paths case-sensitively
(`paths.includes(input.folderPath)`) while `removeSkillsFolderPath`
filters case-insensitively, so with the stored list
`[{path:"A"}, {path:"a"}]` removing `"A"` passes both guards and then
deletes both entries, leaving zero folders. -/

/-- C7 (code bug evaluation): on the stored folder list
`[{path:"A"}, {path:"a"}]` with input `"A"`, the tool takes the success
branch and stores the empty folder list, violating the documented
"at least one folder always remains" invariant. -/
theorem removeFolderTool_can_empty_configuration :
    removeSkillsFolderTool [⟨"A".data, none⟩, ⟨"a".data, none⟩] "A".data
      = ([], .removed)
    ∧ ((removeSkillsFolderTool [⟨"A".data, none⟩, ⟨"a".data, none⟩] "A".data).1).length = 0 := by
  decide

/-! ## C9 — set-skills-folder resets the enabled list -/

/-- C9: after a successful set-skills-folder run (valid path, exists,
is a directory), the tool reports success and the stored enabled list
is exactly (as a duplicate-free set) the directory names of all skills
discovered across all configured folders; in particular every
discovered skill is enabled afterwards, whether or not it was enabled
before. -/
theorem setSkillsFolderTool_resets_enabled (pathValid pathExists isDirectory : Bool)
    (folderPath : Str) (folders : List SkillsFolder) (discoveredNames enabled : List Str)
    (hv : pathValid = true) (he : pathExists = true) (hd : isDirectory = true) :
    (setSkillsFolderTool pathValid pathExists isDirectory folderPath folders discoveredNames enabled).2.2 = .ok
    ∧ (∀ n, n ∈ (setSkillsFolderTool pathValid pathExists isDirectory folderPath folders discoveredNames enabled).2.1
          ↔ n ∈ discoveredNames)
    ∧ ((setSkillsFolderTool pathValid pathExists isDirectory folderPath folders discoveredNames enabled).2.1).Nodup
    ∧ (∀ n, n ∈ discoveredNames →
        isSkillEnabled n (setSkillsFolderTool pathValid pathExists isDirectory folderPath folders discoveredNames enabled).2.1 = true) := by
  subst hv he hd
  refine ⟨rfl, ?_, ?_, ?_⟩
  · intro n
    simp [setSkillsFolderTool, setEnabledSkillNames, mem_jsSetDedup]
  · simpa [setSkillsFolderTool, setEnabledSkillNames] using nodup_jsSetDedup discoveredNames
  · intro n hn
    simp [setSkillsFolderTool, setEnabledSkillNames, isSkillEnabled,
      contains_iff_mem, mem_jsSetDedup, hn]

/-- C9 witness: a previously disabled skill (`"old"` absent from the
prior enabled list) is enabled after a successful run. -/
theorem setSkillsFolderTool_resets_enabled_witness :
    isSkillEnabled "old".data
      (setSkillsFolderTool true true true "/s".data [] ["old".data, "new".data] ["new".data]).2.1 = true :=
  (setSkillsFolderTool_resets_enabled true true true "/s".data [] ["old".data, "new".data]
    ["new".data] rfl rfl rfl).2.2.2 "old".data (by decide)

/-! ## C10 — duplicate-freeness of the enabled list -/

/-- C10 counterexample: the rename step of `updateSkill`, applied to
the duplicate-free enabled list `["a", "b"]` with old name `"a"` and
new name `"b"`, stores `["b", "b"]`, which contains the same name
twice. -/
theorem renameEnabledStep_creates_duplicate :
    (["a".data, "b".data] : List Str).Nodup
    ∧ renameEnabledStep "a".data "b".data ["a".data, "b".data] = ["b".data, "b".data]
    ∧ ¬ (renameEnabledStep "a".data "b".data ["a".data, "b".data]).Nodup := by
  refine ⟨by decide, by decide, ?_⟩
  intro h
  rw [show renameEnabledStep "a".data "b".data ["a".data, "b".data]
      = ["b".data, "b".data] from by decide] at h
  simp at h

/-- C10 (amended): `enableSkill`, `disableSkill` and
`setEnabledSkillNames` map a duplicate-free stored list to a
duplicate-free list, and so does the rename step of `updateSkill`
provided the new name equals the old name or does not already occur in
the stored list. -/
theorem enabled_nodup_preserved (l names : List Str) (n old new : Str)
    (h : l.Nodup) :
    (enableSkill n l).Nodup
    ∧ (disableSkill n l).Nodup
    ∧ (setEnabledSkillNames names).Nodup
    ∧ ((new = old ∨ new ∉ l) → (renameEnabledStep old new l).Nodup) := by
  refine ⟨?_, ?_, nodup_jsSetDedup names, ?_⟩
  · simp only [enableSkill, contains_eq_decide]
    by_cases hm : n ∈ l
    · simpa [hm] using h
    · simp only [hm, decide_False, Bool.false_eq_true, if_false]
      rw [List.nodup_append]
      refine ⟨h, by simp, ?_⟩
      intro a ha hb
      rw [List.mem_singleton] at hb
      subst hb
      exact hm ha
  · exact h.filter _
  · intro hnew
    simp only [renameEnabledStep, contains_eq_decide]
    by_cases hc : old ∈ l
    · simp only [hc, decide_True, if_true]
      rw [List.nodup_append]
      refine ⟨h.filter _, by simp, ?_⟩
      intro a ha hb
      rw [List.mem_singleton] at hb
      subst hb
      rcases List.mem_filter.mp ha with ⟨hal, hane⟩
      rcases hnew with hno | hni
      · subst hno
        simp at hane
      · exact hni hal
    · simpa [hc] using h

/-- C10 witness. -/
theorem enabled_nodup_preserved_witness :
    (enableSkill "c".data ["a".data, "b".data]).Nodup
    ∧ (renameEnabledStep "a".data "c".data ["a".data, "b".data]).Nodup :=
  ⟨(enabled_nodup_preserved ["a".data, "b".data] [] "c".data "a".data "c".data (by decide)).1,
   (enabled_nodup_preserved ["a".data, "b".data] [] "c".data "a".data "c".data (by decide)).2.2.2
     (Or.inr (by decide))⟩

/-! ## C8 — persistence format of stored values -/

/-- C8 counterexample: the value `setRoutingModel("gemini")` writes is
the raw string `gemini`, which is not the JSON serialization of the
stored routing-model string (that would be `"gemini"`, with quotes), so
not every value the extension writes is a JSON document. -/
theorem setRoutingModel_write_not_json :
    setRoutingModelWrite "gemini".data = some (ROUTING_MODEL_KEY, "gemini".data)
    ∧ jsonString "gemini".data ≠ "gemini".data := by
  refine ⟨rfl, ?_⟩
  decide

/-- C8 (amended): every value written for the folder list is the JSON
serialization of the folder list stored by that operation, and every
value written for the enabled-skills list is the JSON serialization of
the enabled list stored by that operation; the routing-model
preference, by contrast, is persisted as the raw model string. -/
theorem storage_writes_are_json (folders : List SkillsFolder)
    (enabled names : List Str) (p n model : Str) (lab : Option Str) :
    (∀ k v, addSkillsFolderWrite p lab folders = some (k, v) →
        k = SKILLS_FOLDER_KEY ∧ v = jsonFolderList (addSkillsFolderPath p lab folders))
    ∧ (∀ k v, removeSkillsFolderWrite p folders = some (k, v) →
        k = SKILLS_FOLDER_KEY ∧ v = jsonFolderList (removeSkillsFolderPath p folders))
    ∧ (∀ k v, enableSkillWrite n enabled = some (k, v) →
        k = ENABLED_SKILLS_KEY ∧ v = jsonStrList (enableSkill n enabled))
    ∧ (∀ k v, disableSkillWrite n enabled = some (k, v) →
        k = ENABLED_SKILLS_KEY ∧ v = jsonStrList (disableSkill n enabled))
    ∧ (∀ k v, setEnabledSkillNamesWrite names = some (k, v) →
        k = ENABLED_SKILLS_KEY ∧ v = jsonStrList (setEnabledSkillNames names))
    ∧ setRoutingModelWrite model = some (ROUTING_MODEL_KEY, model) := by
  refine ⟨?_, ?_, ?_, ?_, ?_, rfl⟩
  · intro k v h
    by_cases hd : folderPathDup folders p = true
    · rw [addSkillsFolderWrite, if_pos hd] at h
      cases h
    · rw [addSkillsFolderWrite, if_neg hd] at h
      rw [Option.some.injEq, Prod.mk.injEq] at h
      refine ⟨h.1.symm, ?_⟩
      rw [← h.2, addSkillsFolderPath, if_neg hd]
  · intro k v h
    rw [removeSkillsFolderWrite, Option.some.injEq, Prod.mk.injEq] at h
    exact ⟨h.1.symm, by rw [← h.2, removeSkillsFolderPath]⟩
  · intro k v h
    by_cases hc : enabled.contains n = true
    · rw [enableSkillWrite, if_pos hc] at h
      cases h
    · rw [enableSkillWrite, if_neg hc] at h
      rw [Option.some.injEq, Prod.mk.injEq] at h
      refine ⟨h.1.symm, ?_⟩
      rw [← h.2, enableSkill, if_neg hc]
  · intro k v h
    rw [disableSkillWrite, Option.some.injEq, Prod.mk.injEq] at h
    exact ⟨h.1.symm, by rw [← h.2, disableSkill]⟩
  · intro k v h
    rw [setEnabledSkillNamesWrite, Option.some.injEq, Prod.mk.injEq] at h
    exact ⟨h.1.symm, by rw [← h.2, setEnabledSkillNames]⟩

/-- C8 witness. -/
theorem storage_writes_are_json_witness :
    (SKILLS_FOLDER_KEY = SKILLS_FOLDER_KEY
      ∧ jsonFolderList [⟨"p".data, none⟩] = jsonFolderList (addSkillsFolderPath "p".data none []))
    ∧ (ENABLED_SKILLS_KEY = ENABLED_SKILLS_KEY
      ∧ jsonStrList ["b".data] = jsonStrList (enableSkill "b".data [])) :=
  ⟨(storage_writes_are_json [] [] [] "p".data "b".data "m".data none).1
      SKILLS_FOLDER_KEY (jsonFolderList [⟨"p".data, none⟩]) (by decide),
   (storage_writes_are_json [] [] [] "p".data "b".data "m".data none).2.2.1
      ENABLED_SKILLS_KEY (jsonStrList ["b".data]) (by decide)⟩

/-- The selection component of `selectSkillWithAI`. -/
theorem selectSkillWithAI_fst (skills : List ClaudeSkill) (request model : Str)
    (oracle : Str → Option Str) :
    (selectSkillWithAI skills request model oracle).1
      = match oracle (buildPrompt skills request) with
        | none => none
        | some response =>
            if upperStr (stripQuotes (jsTrim response)) = noneReply then none
            else some (stripQuotes (jsTrim response)) := rfl

/-- `selectSkillWithAI` sends exactly one request. -/
theorem selectSkillWithAI_snd (skills : List ClaudeSkill) (request model : Str)
    (oracle : Str → Option Str) :
    (selectSkillWithAI skills request model oracle).2 = [buildPrompt skills request] := rfl

/-! ## C1 — reply interpretation of the use-skills tool -/

/-- C1: with a configured routing model and a non-empty enabled-skill
list, modeling the model service as an oracle that replies `r`: the
tool returns the no-match guidance when the trimmed, quote-stripped
reply is `NONE` (ignoring case) or matches no enabled skill by
directory name or metadata name, and otherwise returns the formatted
instructions of the matched enabled skill. -/
theorem useSkills_selects_reply (model request r : Str)
    (skills : List ClaudeSkill) (h : skills ≠ []) :
    ((upperStr (stripQuotes (jsTrim r)) = noneReply
        ∨ findSkillByName skills (stripQuotes (jsTrim r)) = none) →
      (useSkillsTool (some model) skills (fun _ => some r) request).1
        = formatNoMatchMessage skills)
    ∧ (∀ sk, upperStr (stripQuotes (jsTrim r)) ≠ noneReply →
        findSkillByName skills (stripQuotes (jsTrim r)) = some sk →
        (useSkillsTool (some model) skills (fun _ => some r) request).1
          = formatSkillResponse sk) := by
  have hne : skills.isEmpty = false := by
    cases skills
    · exact absurd rfl h
    · rfl
  constructor
  · rintro (hnone | hfind)
    · simp [useSkillsTool, selectSkillWithAI_fst, hne, hnone]
    · by_cases hnone : upperStr (stripQuotes (jsTrim r)) = noneReply
      · simp [useSkillsTool, selectSkillWithAI_fst, hne, hnone]
      · simp [useSkillsTool, selectSkillWithAI_fst, hne, hnone, hfind]
  · intro sk hnone hfind
    simp [useSkillsTool, selectSkillWithAI_fst, hne, hnone, hfind]

/-- C1 witness: the reply `  "demo"  ` selects the skill named `demo`
after trimming and quote stripping; the reply `None` yields the
no-match guidance. -/
theorem useSkills_selects_reply_witness :
    (useSkillsTool (some "raycast-ai".data)
        [⟨"demo".data, "/s".data, ⟨"demo".data, "d".data⟩, "c".data, [], "/m".data⟩]
        (fun _ => some "  \"demo\"  ".data) "req".data).1
      = formatSkillResponse ⟨"demo".data, "/s".data, ⟨"demo".data, "d".data⟩, "c".data, [], "/m".data⟩
    ∧ (useSkillsTool (some "raycast-ai".data)
        [⟨"demo".data, "/s".data, ⟨"demo".data, "d".data⟩, "c".data, [], "/m".data⟩]
        (fun _ => some "None".data) "req".data).1
      = formatNoMatchMessage [⟨"demo".data, "/s".data, ⟨"demo".data, "d".data⟩, "c".data, [], "/m".data⟩] :=
  ⟨(useSkills_selects_reply "raycast-ai".data "req".data "  \"demo\"  ".data
      [⟨"demo".data, "/s".data, ⟨"demo".data, "d".data⟩, "c".data, [], "/m".data⟩]
      (by decide)).2
      ⟨"demo".data, "/s".data, ⟨"demo".data, "d".data⟩, "c".data, [], "/m".data⟩
      (by decide) (by decide),
   (useSkills_selects_reply "raycast-ai".data "req".data "None".data
      [⟨"demo".data, "/s".data, ⟨"demo".data, "d".data⟩, "c".data, [], "/m".data⟩]
      (by decide)).1 (Or.inl (by decide))⟩

/-! ## C4 — at most one external request per invocation -/

/-- C4: a use-skills invocation sends at most one request to the
external model service; it sends none when no routing model is
configured (returning the setup text) or when no skill is enabled
(returning the guidance text), and when the one request it does send
fails it returns the no-match guidance without retrying. -/
theorem useSkills_at_most_one_request (routingModel : Option Str)
    (skills : List ClaudeSkill) (oracle : Str → Option Str) (request : Str) :
    (useSkillsTool routingModel skills oracle request).2.length ≤ 1
    ∧ (routingModel = none →
        useSkillsTool routingModel skills oracle request = (setupRequiredMessage, []))
    ∧ (∀ m, routingModel = some m → skills = [] →
        useSkillsTool routingModel skills oracle request = (noSkillsEnabledMessage, []))
    ∧ (∀ m, routingModel = some m → skills ≠ [] →
        oracle (buildPrompt skills request) = none →
        (useSkillsTool routingModel skills oracle request).1 = formatNoMatchMessage skills
        ∧ (useSkillsTool routingModel skills oracle request).2.length = 1) := by
  refine ⟨?_, ?_, ?_, ?_⟩
  · rcases routingModel with _ | m
    · simp [useSkillsTool]
    · by_cases hne : skills.isEmpty
      · simp [useSkillsTool, hne]
      · rcases hsel : (selectSkillWithAI skills request m oracle).1 with _ | selected
        · simp [useSkillsTool, hne, hsel, selectSkillWithAI_snd]
        · rcases hf : findSkillByName skills selected with _ | sk
          · simp [useSkillsTool, hne, hsel, hf, selectSkillWithAI_snd]
          · simp [useSkillsTool, hne, hsel, hf, selectSkillWithAI_snd]
  · rintro rfl
    rfl
  · rintro m rfl rfl
    rfl
  · rintro m rfl hnil hfail
    have hne : skills.isEmpty = false := by
      cases skills
      · exact absurd rfl hnil
      · rfl
    have hsel : (selectSkillWithAI skills request m oracle).1 = none := by
      rw [selectSkillWithAI_fst, hfail]
    constructor
    · simp [useSkillsTool, hne, hsel]
    · simp [useSkillsTool, hne, hsel, selectSkillWithAI_snd]

/-- C4 witness. -/
theorem useSkills_at_most_one_request_witness :
    useSkillsTool none [] (fun _ => none) "r".data = (setupRequiredMessage, [])
    ∧ useSkillsTool (some "m".data) [] (fun _ => none) "r".data = (noSkillsEnabledMessage, [])
    ∧ (useSkillsTool (some "m".data)
        [⟨"demo".data, "/s".data, ⟨"demo".data, "d".data⟩, "c".data, [], "/m".data⟩]
        (fun _ => none) "r".data).1
      = formatNoMatchMessage
          [⟨"demo".data, "/s".data, ⟨"demo".data, "d".data⟩, "c".data, [], "/m".data⟩] :=
  ⟨(useSkills_at_most_one_request none [] (fun _ => none) "r".data).2.1 rfl,
   (useSkills_at_most_one_request (some "m".data) [] (fun _ => none) "r".data).2.2.1
      "m".data rfl rfl,
   ((useSkills_at_most_one_request (some "m".data)
      [⟨"demo".data, "/s".data, ⟨"demo".data, "d".data⟩, "c".data, [], "/m".data⟩]
      (fun _ => none) "r".data).2.2.2 "m".data rfl (by decide) rfl).1⟩

/-! ## C2 — characterization of parseSkillMarkdown -/

/-- C2: `parseSkillMarkdown(s)` returns a parse result exactly when `s`
starts with `---`, another `---` occurs at some index at least 3, and
the trimmed text strictly between the delimiters YAML-parses to a
mapping whose `name` and `description` entries are both strings; the
returned metadata is exactly those two strings and the returned body is
the text after the second `---` with surrounding whitespace trimmed.
In every other case it returns null. -/
theorem parseSkillMarkdown_characterization (yamlParse : Str → Option Yaml)
    (content : Str) (r : SkillFrontmatter × Str) :
    parseSkillMarkdown yamlParse content = some r
    ↔ dashes.isPrefixOf content = true
      ∧ ∃ fe entries n d,
          jsIndexOfFrom content 3 = some fe
          ∧ yamlParse (jsTrim ((content.take fe).drop 3)) = some (.vmap entries)
          ∧ mapLookup entries nameKey = some (.vstr n)
          ∧ mapLookup entries descriptionKey = some (.vstr d)
          ∧ r = (⟨n, d⟩, jsTrim (content.drop (fe + 3))) := by
  constructor
  · intro h
    unfold parseSkillMarkdown at h
    by_cases hpre : dashes.isPrefixOf content = true
    · rw [if_pos hpre] at h
      refine ⟨hpre, ?_⟩
      rcases hfe : jsIndexOfFrom content 3 with _ | fe
      · simp only [hfe] at h
        cases h
      · simp only [hfe] at h
        rcases hy : yamlParse (jsTrim ((content.take fe).drop 3)) with _ | v
        · simp only [hy] at h
          cases h
        · simp only [hy] at h
          cases v with
          | vnull => simp [jsTruthy] at h
          | vbool b => cases b <;> simp [jsTruthy, jsTypeofIsObject] at h
          | vnum k => simp [jsTypeofIsObject] at h
          | vstr s => simp [jsTypeofIsObject] at h
          | vseq items => simp [jsTruthy, jsTypeofIsObject, jsGetProp] at h
          | vmap entries =>
            simp only [jsTruthy, jsTypeofIsObject, Bool.and_self, if_true, jsGetProp] at h
            split at h
            · rename_i n d heq1 heq2
              rw [Option.some.injEq] at h
              exact ⟨fe, entries, n, d, rfl, hy, heq1, heq2, h.symm⟩
            · cases h
    · rw [if_neg hpre] at h
      cases h
  · rintro ⟨hpre, fe, entries, n, d, hfe, hy, hn, hd, hr⟩
    subst hr
    unfold parseSkillMarkdown
    rw [if_pos hpre]
    simp only [hfe, hy, jsTruthy, jsTypeofIsObject, Bool.and_self, if_true, jsGetProp, hn, hd]

/-- C2 witness. -/
theorem parseSkillMarkdown_characterization_witness :
    dashes.isPrefixOf "---\nname: a\ndescription: b\n---\nbody".data = true
    ∧ ∃ fe entries n d,
        jsIndexOfFrom "---\nname: a\ndescription: b\n---\nbody".data 3 = some fe
        ∧ miniYamlParse (jsTrim (("---\nname: a\ndescription: b\n---\nbody".data.take fe).drop 3))
            = some (.vmap entries)
        ∧ mapLookup entries nameKey = some (.vstr n)
        ∧ mapLookup entries descriptionKey = some (.vstr d)
        ∧ ((⟨"a".data, "b".data⟩, "body".data) : SkillFrontmatter × Str)
            = (⟨n, d⟩, jsTrim ("---\nname: a\ndescription: b\n---\nbody".data.drop (fe + 3))) :=
  (parseSkillMarkdown_characterization miniYamlParse
    "---\nname: a\ndescription: b\n---\nbody".data
    (⟨"a".data, "b".data⟩, "body".data)).mp (by decide)

/-! ### Trim and search lemmas for the round trip -/

theorem trimStart_ws_cons (c : Char) (s : Str) (h : wsChar c = true) :
    trimStart (c :: s) = trimStart s := by
  simp [trimStart, List.dropWhile_cons, h]

theorem trimEnd_ws_append (c : Char) (s : Str) (h : wsChar c = true) :
    trimEnd (s ++ [c]) = trimEnd s := by
  simp [trimEnd, List.reverse_append, List.dropWhile_cons, h]

theorem jsTrim_ws_cons (c : Char) (s : Str) (h : wsChar c = true) :
    jsTrim (c :: s) = jsTrim s := by
  rw [jsTrim, jsTrim, trimStart_ws_cons c s h]

theorem jsTrim_ws_append (c : Char) (s : Str) (h : wsChar c = true) :
    jsTrim (s ++ [c]) = jsTrim s := by
  rw [jsTrim, jsTrim, trimStart, trimStart, List.dropWhile_append]
  by_cases he : (s.dropWhile wsChar).isEmpty
  · rw [if_pos he]
    have h2 : s.dropWhile wsChar = [] := List.isEmpty_iff.mp he
    rw [h2]
    simp [List.dropWhile_cons, h]
  · rw [if_neg he]
    exact trimEnd_ws_append c _ h

theorem findDashes_prepend (b : Str) (hb : dashes.isPrefixOf b = true) :
    ∀ (a : Str) (i : Nat),
      (∀ j, j < a.length → dashes.isPrefixOf ((a ++ b).drop j) = false) →
      findDashes (a ++ b) i = some (i + a.length) := by
  intro a
  induction a with
  | nil =>
    intro i _
    cases b with
    | nil => cases hb
    | cons c t =>
      show (if dashes.isPrefixOf (c :: t) then some i else findDashes t (i + 1))
        = some (i + ([] : Str).length)
      rw [if_pos hb]
      simp
  | cons c a' ih =>
    intro i ha
    have h0 : ¬ (dashes.isPrefixOf (c :: (a' ++ b)) = true) := by
      have := ha 0 (by simp)
      simp only [List.cons_append, List.drop_zero] at this
      rw [this]
      simp
    have ha' : ∀ j, j < a'.length → dashes.isPrefixOf ((a' ++ b).drop j) = false := by
      intro j hj
      have := ha (j + 1) (by simp only [List.length_cons]; omega)
      simpa [List.cons_append, List.drop_succ_cons] using this
    show (if dashes.isPrefixOf (c :: (a' ++ b)) then some i else findDashes (a' ++ b) (i + 1))
      = some (i + (c :: a').length)
    rw [if_neg h0, ih (i + 1) ha']
    congr 1
    simp only [List.length_cons]
    omega

theorem findDashes_none (s : Str) : ∀ i, findDashes s i = none →
    ∀ j, dashes.isPrefixOf (s.drop j) = false := by
  induction s with
  | nil =>
    intro i _ j
    rw [List.drop_nil]
    rfl
  | cons c t ih =>
    intro i h j
    by_cases hp : dashes.isPrefixOf (c :: t) = true
    · exfalso
      have hs : findDashes (c :: t) i = some i := by
        show (if dashes.isPrefixOf (c :: t) then some i else findDashes t (i + 1)) = some i
        rw [if_pos hp]
      rw [hs] at h
      cases h
    · have ht : findDashes t (i + 1) = none := by
        have he : findDashes (c :: t) i = findDashes t (i + 1) := by
          show (if dashes.isPrefixOf (c :: t) then some i else findDashes t (i + 1)) = _
          rw [if_neg hp]
        rw [← he]
        exact h
      cases j with
      | zero =>
        rw [List.drop_zero]
        exact Bool.eq_false_iff.mpr hp
      | succ j' =>
        rw [List.drop_succ_cons]
        exact ih (i + 1) ht j'

theorem containsDashes_false_no_dash (s : Str) (h : containsDashes s = false) :
    ∀ j, dashes.isPrefixOf (s.drop j) = false := by
  rcases hf : findDashes s 0 with _ | k
  · exact findDashes_none s 0 hf
  · rw [containsDashes, hf] at h
    simp at h

theorem dash_prefix_through_newline (u v : Str)
    (h : dashes.isPrefixOf (u ++ '\n' :: v) = true) :
    dashes.isPrefixOf u = true := by
  match u with
  | [] =>
    exfalso
    have h' : (('-' == '\n') && List.isPrefixOf ['-', '-'] v) = true := h
    simp [show ('-' == '\n') = false from by decide] at h'
  | [c1] =>
    exfalso
    have h' : (('-' == c1) && (('-' == '\n') && List.isPrefixOf ['-'] v)) = true := h
    simp [show ('-' == '\n') = false from by decide] at h'
  | [c1, c2] =>
    exfalso
    have h' : (('-' == c1) && (('-' == c2) && (('-' == '\n') && List.isPrefixOf [] v))) = true := h
    simp [show ('-' == '\n') = false from by decide] at h'
  | c1 :: c2 :: c3 :: u' =>
    have h' : (('-' == c1) && (('-' == c2) && (('-' == c3)
        && List.isPrefixOf [] (u' ++ '\n' :: v)))) = true := h
    show (('-' == c1) && (('-' == c2) && (('-' == c3) && List.isPrefixOf [] u'))) = true
    simp only [List.isPrefixOf, Bool.and_true] at h' ⊢
    exact h'

/-- Core of the round trip: parsing `---\n` ++ fm ++ `\n---\n\n` ++
content when `---` does not occur in fm and the YAML oracle parses the
trimmed fm to a mapping with string `name` and `description`. -/
theorem parseSkillMarkdown_wrapped (yamlParse : Str → Option Yaml)
    (fm content : Str) (entries : List (Str × Yaml)) (n d : Str)
    (hnd : containsDashes fm = false)
    (hparse : yamlParse (jsTrim fm) = some (.vmap entries))
    (hname : mapLookup entries nameKey = some (.vstr n))
    (hdesc : mapLookup entries descriptionKey = some (.vstr d)) :
    parseSkillMarkdown yamlParse ("---\n".data ++ fm ++ "\n---\n\n".data ++ content)
      = some (⟨n, d⟩, jsTrim content) := by
  have hnodash := containsDashes_false_no_dash fm hnd
  have hfile : "---\n".data ++ fm ++ "\n---\n\n".data ++ content
      = '-' :: '-' :: '-' :: '\n'
          :: (fm ++ ('\n' :: '-' :: '-' :: '-' :: '\n' :: '\n' :: content)) := by
    rw [List.append_assoc, List.append_assoc]
    exact rfl
  rw [hfile]
  have hsplit : '\n' :: (fm ++ ('\n' :: '-' :: '-' :: '-' :: '\n' :: '\n' :: content))
      = ('\n' :: (fm ++ ['\n'])) ++ ('-' :: '-' :: '-' :: '\n' :: '\n' :: content) := by
    rw [List.cons_append, List.append_assoc]
    exact rfl
  have hb : dashes.isPrefixOf ('-' :: '-' :: '-' :: '\n' :: '\n' :: content) = true := rfl
  have ha : ∀ j, j < ('\n' :: (fm ++ ['\n'])).length →
      dashes.isPrefixOf
        ((('\n' :: (fm ++ ['\n'])) ++ ('-' :: '-' :: '-' :: '\n' :: '\n' :: content)).drop j)
        = false := by
    intro j hj
    rw [← hsplit]
    cases j with
    | zero =>
      rw [List.drop_zero]
      have hF : (('-' == '\n')
          && List.isPrefixOf ['-', '-']
              (fm ++ ('\n' :: '-' :: '-' :: '-' :: '\n' :: '\n' :: content))) = false := by
        simp [show ('-' == '\n') = false from by decide]
      exact hF
    | succ j' =>
      rw [List.drop_succ_cons]
      have hj' : j' ≤ fm.length := by
        simp only [List.length_cons, List.length_append, List.length_nil] at hj
        omega
      rw [List.drop_append_eq_append_drop]
      have hz : j' - fm.length = 0 := by omega
      rw [hz, List.drop_zero]
      refine Bool.eq_false_iff.mpr (fun hP => ?_)
      have h2 := dash_prefix_through_newline (fm.drop j') _ hP
      rw [hnodash j'] at h2
      exact Bool.false_ne_true h2
  have hpre : dashes.isPrefixOf
      ('-' :: '-' :: '-' :: '\n'
        :: (fm ++ ('\n' :: '-' :: '-' :: '-' :: '\n' :: '\n' :: content))) = true := rfl
  have hfe : jsIndexOfFrom
      ('-' :: '-' :: '-' :: '\n'
        :: (fm ++ ('\n' :: '-' :: '-' :: '-' :: '\n' :: '\n' :: content))) 3
      = some (fm.length + 5) := by
    show findDashes ('\n' :: (fm ++ ('\n' :: '-' :: '-' :: '-' :: '\n' :: '\n' :: content))) 3
      = some (fm.length + 5)
    rw [hsplit, findDashes_prepend _ hb _ 3 ha]
    congr 1
    simp only [List.length_cons, List.length_append, List.length_nil]
    omega
  have htX : (fm ++ ('\n' :: '-' :: '-' :: '-' :: '\n' :: '\n' :: content)).take (fm.length + 1)
      = fm ++ ['\n'] := by
    rw [List.take_append_eq_append_take]
    rw [List.take_of_length_le (by omega)]
    have h1 : fm.length + 1 - fm.length = 1 := by omega
    rw [h1]
    exact rfl
  have hfmtext : jsTrim
      ((('-' :: '-' :: '-' :: '\n'
          :: (fm ++ ('\n' :: '-' :: '-' :: '-' :: '\n' :: '\n' :: content))).take
            (fm.length + 5)).drop 3)
      = jsTrim fm := by
    have ht : ('-' :: '-' :: '-' :: '\n'
          :: (fm ++ ('\n' :: '-' :: '-' :: '-' :: '\n' :: '\n' :: content))).take
            (fm.length + 5)
        = '-' :: '-' :: '-' :: '\n'
          :: ((fm ++ ('\n' :: '-' :: '-' :: '-' :: '\n' :: '\n' :: content)).take
            (fm.length + 1)) := rfl
    rw [ht, htX]
    show jsTrim ('\n' :: (fm ++ ['\n'])) = jsTrim fm
    rw [jsTrim_ws_cons '\n' _ (by decide)]
    exact jsTrim_ws_append '\n' fm (by decide)
  have hbody : jsTrim
      (('-' :: '-' :: '-' :: '\n'
          :: (fm ++ ('\n' :: '-' :: '-' :: '-' :: '\n' :: '\n' :: content))).drop
            (fm.length + 5 + 3))
      = jsTrim content := by
    have ht : ('-' :: '-' :: '-' :: '\n'
          :: (fm ++ ('\n' :: '-' :: '-' :: '-' :: '\n' :: '\n' :: content))).drop
            (fm.length + 5 + 3)
        = (fm ++ ('\n' :: '-' :: '-' :: '-' :: '\n' :: '\n' :: content)).drop
            (fm.length + 4) := rfl
    rw [ht, List.drop_append_eq_append_drop]
    rw [List.drop_of_length_le (by omega)]
    have h4 : fm.length + 4 - fm.length = 4 := by omega
    rw [h4]
    show jsTrim ('\n' :: '\n' :: content) = jsTrim content
    rw [jsTrim_ws_cons '\n' _ (by decide), jsTrim_ws_cons '\n' _ (by decide)]
  unfold parseSkillMarkdown
  rw [if_pos hpre]
  simp only [hfe, hfmtext, hparse, jsTruthy, jsTypeofIsObject, Bool.and_self, if_true,
    jsGetProp, hname, hdesc, hbody]

/-! ## C3 — round trip of the skill file format -/

/-- C3 counterexample: the name `a---b` matches `^[a-z0-9-]+$`, the
description `ok` and content `body` are non-empty and contain no `---`,
yet parsing the SKILL.md text that `createSkill` writes returns null
instead of the metadata: the YAML serialization `name: a---b\n...`
embeds `---`, so `indexOf("---", 3)` cuts the front matter short at
`name: a`, which lacks a string `description`.  (The YAML oracles are
instantiated with the flat plain-scalar model of the yaml library,
which serializes `a---b` without quoting.) -/
theorem createSkill_roundtrip_counterexample :
    matchesSkillNameRegex "a---b".data = true
    ∧ "ok".data ≠ [] ∧ "body".data ≠ []
    ∧ containsDashes "ok".data = false
    ∧ containsDashes "body".data = false
    ∧ parseSkillMarkdown miniYamlParse
        (skillFileText miniYamlStringify "a---b".data "ok".data "body".data) = none := by
  refine ⟨by decide, by decide, by decide, by decide, by decide, by decide⟩

/-- C3 (amended): for every name matching `^[a-z0-9-]+$`, description
and content, provided the trimmed YAML serialization of the two fields
contains no occurrence of `---` (in particular the name must not
contain `---`) and the YAML parser recovers the two string fields from
it, parsing the SKILL.md text that `createSkill` writes returns exactly
the given name and description and the content trimmed of surrounding
whitespace. -/
theorem createSkill_parse_roundtrip (yamlStringify : Str → Str → Str)
    (yamlParse : Str → Option Yaml) (name description content : Str)
    (entries : List (Str × Yaml))
    (hnd : containsDashes (trimEnd (yamlStringify name description)) = false)
    (hparse : yamlParse (jsTrim (trimEnd (yamlStringify name description)))
        = some (.vmap entries))
    (hname : mapLookup entries nameKey = some (.vstr name))
    (hdesc : mapLookup entries descriptionKey = some (.vstr description)) :
    parseSkillMarkdown yamlParse (skillFileText yamlStringify name description content)
      = some (⟨name, description⟩, jsTrim content) :=
  parseSkillMarkdown_wrapped yamlParse (trimEnd (yamlStringify name description))
    content entries name description hnd hparse hname hdesc

/-- C3 witness: with the flat plain-scalar yaml model, creating and
re-parsing the skill `roo` round-trips. -/
theorem createSkill_parse_roundtrip_witness :
    parseSkillMarkdown miniYamlParse
        (skillFileText miniYamlStringify "roo".data "bar".data "body".data)
      = some (⟨"roo".data, "bar".data⟩, jsTrim "body".data) :=
  createSkill_parse_roundtrip miniYamlStringify miniYamlParse
    "roo".data "bar".data "body".data
    [("name".data, .vstr "roo".data), ("description".data, .vstr "bar".data)]
    (by decide) (by rfl) (by rfl) (by rfl)
